import Mathlib

/-!
Shallow embedding of the volatility-bot core (`src/logic.py`, with the service
entry points called from `src/bot.py`), together with proofs of the behavioural
claims about it.

Modelling conventions:
* Python floats are modelled as `ℚ` wherever the computation is rational
  (differences, ratios, means, percentile interpolation); the two
  transcendental quantities (`np.log`-based log returns and the square roots
  inside standard deviations) live in `ℝ`.
* The HTTP layer is abstracted by oracles: `resolve_symbol` takes the
  instrument lookup (`/v5/market/instruments-info`) as a function
  `String → String → Option String` (category → candidate symbol → canonical
  symbol when the instrument list is non-empty), `request` takes the per-attempt
  outcome as `ℕ → Option α`, and `fetch_daily_ohlcv` takes the already-decoded
  kline rows of a successful payload.
* Functions that raise exceptions in Python return `Except BotError _`.
-/

namespace VolBot

/-- The error taxonomy of `src/logic.py` lines 17-30.  The spec calls
`bybitAPIError` "DataSourceError". -/
inductive BotError where
  | validationError (msg : String)
  | symbolNotFoundError (msg : String)
  | bybitAPIError (msg : String)
  deriving DecidableEq, Repr

/-- `SymbolResolution` dataclass (`src/logic.py` lines 33-36). -/
structure SymbolResolution where
  category : String
  symbol : String
  deriving DecidableEq, Repr

/-- `OHLCVCandle` dataclass (`src/logic.py` lines 39-46).  The field `open` is
a reserved word in Lean, hence `open_`. -/
structure OHLCVCandle where
  ts : Int
  open_ : ℚ
  high : ℚ
  low : ℚ
  close : ℚ
  volume : ℚ
  deriving DecidableEq, Repr

/-- One decoded row of the kline payload (`row[0] .. row[5]` in
`src/logic.py` lines 114-124, already converted by `int`/`float`). -/
structure RawRow where
  ts : Int
  o : ℚ
  h : ℚ
  l : ℚ
  c : ℚ
  v : ℚ
  deriving DecidableEq, Repr

/-- The character class of the regex `[^A-Za-z0-9]` in `normalize_ticker`
(`src/logic.py` line 190): the characters that are kept. -/
def ascii_alnum (ch : Char) : Bool :=
  (('A' ≤ ch && ch ≤ 'Z') || ('a' ≤ ch && ch ≤ 'z') || ('0' ≤ ch && ch ≤ '9'))

/-- The cleaning step of `normalize_ticker` (`src/logic.py` line 190):
`re.sub(r"[^A-Za-z0-9]", "", raw.upper().strip())`.  `strip` only removes
whitespace, which the regex removes anyway, so cleaning is uppercasing each
character and keeping the ASCII alphanumerics. -/
def clean_ticker (raw : String) : String :=
  String.mk ((raw.toList.map Char.toUpper).filter ascii_alnum)

/-- `normalize_ticker` (`src/logic.py` lines 189-195). -/
def normalize_ticker (raw : String) : Except BotError String :=
  let cleaned := clean_ticker raw
  if cleaned.length = 0 then
    Except.error (BotError.validationError
      "Please send a valid ticker (e.g., BTC, ETHUSDT, PEPE).")
  else if 20 < cleaned.length then
    Except.error (BotError.validationError
      "Ticker is too long. Please send a normal symbol like BTC or SOLUSDT.")
  else
    Except.ok cleaned

/-- `normalized.endswith(("USDT", "USDC", "USD"))` (`src/logic.py` line 81). -/
def has_quote_suffix (normalized : String) : Bool :=
  ("USDT".toList.isSuffixOf normalized.toList
    || "USDC".toList.isSuffixOf normalized.toList
    || "USD".toList.isSuffixOf normalized.toList)

/-- Candidate generation of `resolve_symbol` (`src/logic.py` lines 80-82). -/
def candidates_for (normalized : String) : List String :=
  if has_quote_suffix normalized then [normalized]
  else [normalized ++ "USDT", normalized ++ "USD", normalized]

/-- `category_order = ["linear", "inverse", "spot"]` (`src/logic.py` line 84). -/
def category_order : List String := ["linear", "inverse", "spot"]

/-- The inner candidate loop of `resolve_symbol` (`src/logic.py` lines 86-93)
for one category.  `lookup cat cand` abstracts the instruments-info request:
`some sym` when the returned instrument list is non-empty with first symbol
`sym`, `none` when it is empty.  Besides the result we count how many lookup
requests were issued. -/
def find_candidate (lookup : String → String → Option String) (category : String) :
    List String → Option SymbolResolution × ℕ
  | [] => (none, 0)
  | cand :: rest =>
    match lookup category cand with
    | some sym => (some ⟨category, sym⟩, 1)
    | none =>
      let r := find_candidate lookup category rest
      (r.1, r.2 + 1)

/-- The outer category loop of `resolve_symbol` (`src/logic.py` lines 85-93),
also counting lookup requests. -/
def search_categories (lookup : String → String → Option String)
    (candidates : List String) : List String → Option SymbolResolution × ℕ
  | [] => (none, 0)
  | cat :: rest =>
    let r := find_candidate lookup cat candidates
    match r.1 with
    | some res => (some res, r.2)
    | none =>
      let r2 := search_categories lookup candidates rest
      (r2.1, r.2 + r2.2)

/-- `resolve_symbol` (`src/logic.py` lines 77-97) together with the number of
network (instrument lookup) requests it issues. -/
def resolve_symbol_calls (lookup : String → String → Option String)
    (ticker : String) : Except BotError SymbolResolution × ℕ :=
  match normalize_ticker ticker with
  | Except.error e => (Except.error e, 0)
  | Except.ok normalized =>
    let candidates := candidates_for normalized
    let r := search_categories lookup candidates category_order
    match r.1 with
    | some res => (Except.ok res, r.2)
    | none =>
      (Except.error (BotError.symbolNotFoundError
        ("Ticker \x27" ++ normalized ++
          "\x27 was not found on Bybit (Linear, Inverse, or Spot).")), r.2)

/-- `resolve_symbol`, result only. -/
def resolve_symbol (lookup : String → String → Option String) (ticker : String) :
    Except BotError SymbolResolution :=
  (resolve_symbol_calls lookup ticker).1

/-- The retry loop body of `_request` (`src/logic.py` lines 60-75).
`outcome i` is the result of attempt `i`: `some payload` when the HTTP call,
JSON decoding and `retCode` check all succeed, `none` when any of them fails
(the caught `RequestException`/`ValueError`/`BybitAPIError` cases).  The
remaining attempt numbers are the list argument; the accumulator-free return
value is `(result, number of attempts performed, list of back-off sleeps)`. -/
def request_go {α : Type} (outcome : ℕ → Option α) (retries : ℕ) :
    List ℕ → ℚ → Except BotError α × ℕ × List ℚ
  | [], _ =>
    (Except.error (BotError.bybitAPIError "Unexpected API failure."), 0, [])
  | attempt :: rest, delay =>
    match outcome attempt with
    | some payload => (Except.ok payload, 1, [])
    | none =>
      if attempt = retries then
        (Except.error (BotError.bybitAPIError
          "Could not reach Bybit API. Please try again shortly."), 1, [])
      else
        let r := request_go outcome retries rest (delay * 2)
        (r.1, r.2.1 + 1, delay :: r.2.2)

/-- `_request` (`src/logic.py` lines 56-75): attempts `1, ..., retries` with
initial back-off delay `0.5`. -/
def request {α : Type} (outcome : ℕ → Option α) (retries : ℕ) :
    Except BotError α × ℕ × List ℚ :=
  request_go outcome retries (List.range' 1 retries) (1 / 2)

/-- Expected back-off delays: `m` sleeps starting at `d` and doubling. -/
def geom_delays : ℚ → ℕ → List ℚ
  | _, 0 => []
  | d, m + 1 => d :: geom_delays (2 * d) m

/-- `row -> OHLCVCandle` conversion (`src/logic.py` lines 115-124). -/
def parse_row (r : RawRow) : OHLCVCandle :=
  ⟨r.ts, r.o, r.h, r.l, r.c, r.v⟩

/-- The sort key relation of `candles.sort(key=lambda c: c.ts)`
(`src/logic.py` line 126). -/
def ts_le (a b : OHLCVCandle) : Prop := a.ts ≤ b.ts

instance : DecidableRel ts_le := fun a b => inferInstanceAs (Decidable (a.ts ≤ b.ts))

instance : IsTotal OHLCVCandle ts_le := ⟨fun a b => Int.le_total a.ts b.ts⟩

instance : IsTrans OHLCVCandle ts_le := ⟨fun _ _ _ hab hbc => le_trans hab hbc⟩

/-- `fetch_daily_ohlcv` (`src/logic.py` lines 99-127) applied to the decoded
row list of a successful kline payload. -/
def fetch_daily_ohlcv (raw_rows : List RawRow) : Except BotError (List OHLCVCandle) :=
  if raw_rows.length < 30 then
    Except.error (BotError.bybitAPIError
      "Not enough history available (need at least 30 daily candles).")
  else
    Except.ok (List.insertionSort ts_le (raw_rows.map parse_row))

/-! ### Volatility analytics (`src/logic.py` lines 130-174) -/

/-- `np.diff`: consecutive differences. -/
def np_diff {α : Type} [Sub α] (xs : List α) : List α :=
  List.zipWith (fun a b => b - a) xs xs.tail

/-- `np.mean`. -/
def np_mean {α : Type} [DivisionRing α] (xs : List α) : α :=
  xs.sum / (xs.length : α)

/-- `np.max` (total model; numpy raises on an empty array, all users here pass
series of length at least 30). -/
def np_max (xs : List ℚ) : ℚ := xs.foldl max (xs.headD 0)

/-- `np.min` (total model, as for `np_max`). -/
def np_min (xs : List ℚ) : ℚ := xs.foldl min (xs.headD 0)

/-- The Bessel-corrected sample variance: the square of
`np.std(xs, ddof=1)`. -/
def sample_var {α : Type} [DivisionRing α] (xs : List α) : α :=
  ((xs.map (fun x => (x - np_mean xs) ^ 2)).sum) / ((xs.length : α) - 1)

/-- `np.std(xs, ddof=1)` for real data. -/
noncomputable def np_std_sample (xs : List ℝ) : ℝ :=
  Real.sqrt (sample_var xs)

/-- `np.log` applied elementwise to rational data. -/
noncomputable def np_log (xs : List ℚ) : List ℝ :=
  xs.map (fun q : ℚ => Real.log (q : ℝ))

/-- Elementwise combination of three equal-length arrays, used for
`np.maximum.reduce` over the three true-range candidates. -/
def zip_with3 {α β γ δ : Type} (f : α → β → γ → δ) :
    List α → List β → List γ → List δ
  | x :: xs, y :: ys, z :: zs => f x y z :: zip_with3 f xs ys zs
  | _, _, _ => []

/-- The trailing-window slice `xs[-k:]`. -/
def last_n {α : Type} (k : ℕ) (xs : List α) : List α :=
  xs.drop (xs.length - k)

/-- Linear interpolation at virtual index `rank` into the sorted data `s`:
`numpy`'s default percentile interpolation
`s[i] + (rank - i) * (s[i+1] - s[i])` with `i = floor(rank)` (and `s[i]`
itself in place of `s[i+1]` at the top index). -/
def interp_at (s : List ℚ) (rank : ℚ) : ℚ :=
  s.getD (⌊rank⌋).toNat 0 +
    (rank - (((⌊rank⌋).toNat : ℕ) : ℚ)) *
      (s.getD ((⌊rank⌋).toNat + 1) (s.getD (⌊rank⌋).toNat 0) -
        s.getD (⌊rank⌋).toNat 0)

/-- `np.percentile(xs, p)` with the default linear interpolation method:
interpolation at virtual index `p / 100 * (n - 1)` into the sorted data. -/
def np_percentile (xs : List ℚ) (p : ℚ) : ℚ :=
  interp_at (List.insertionSort (fun a b => a ≤ b) xs)
    (p / 100 * ((xs.length : ℚ) - 1))

/-- `VolatilityAnalyzer.PERCENTILES` (`src/logic.py` line 131). -/
def PERCENTILES : List ℕ := [75, 80, 85, 90, 95, 99]

/-- The statistics dictionary returned by `VolatilityAnalyzer.analyze`
(`src/logic.py` lines 157-174).  The `dca_levels` dictionary is modelled as
the function on percentile keys; its key set is `PERCENTILES`. -/
structure VolatilityStats where
  candle_count : ℕ
  daily_vol : ℝ
  weekly_vol : ℝ
  max_daily_surge : ℚ
  max_daily_crash : ℚ
  pump_avg : ℚ
  pump_std : ℝ
  pump_best : ℚ
  dump_avg : ℚ
  dump_std : ℝ
  dump_worst : ℚ
  atr_14 : ℚ
  atr_28 : ℚ
  atr_14_pct : ℚ
  atr_28_pct : ℚ
  dca_levels : ℕ → ℚ

/-- `VolatilityAnalyzer.analyze` (`src/logic.py` lines 133-174).
`prev_close` is `np.roll(c, 1)` with slot `0` overwritten by `c[0]`, i.e.
`c[0] :: c.dropLast`. -/
noncomputable def analyze (candles : List OHLCVCandle) : VolatilityStats :=
  let o := candles.map (fun cd => cd.open_)
  let h := candles.map (fun cd => cd.high)
  let l := candles.map (fun cd => cd.low)
  let c := candles.map (fun cd => cd.close)
  let log_returns : List ℝ := np_diff (np_log c)
  let simple_returns := List.zipWith (fun d prev => d / prev) (np_diff c) c.dropLast
  let pump := List.zipWith (fun x y => (x - y) / y) h o
  let dump := List.zipWith (fun x y => (x - y) / y) l o
  let prev_close := c.headD 0 :: c.dropLast
  let true_range :=
    zip_with3 (fun hi lo pc => max (hi - lo) (max |hi - pc| |lo - pc|)) h l prev_close
  let atr_14 := np_mean (last_n 14 true_range)
  let atr_28 := np_mean (last_n 28 true_range)
  { candle_count := candles.length
    daily_vol := np_std_sample log_returns
    weekly_vol := np_std_sample log_returns * Real.sqrt 7
    max_daily_surge := np_max simple_returns
    max_daily_crash := np_min simple_returns
    pump_avg := np_mean pump
    pump_std := Real.sqrt ((sample_var pump : ℚ) : ℝ)
    pump_best := np_max pump
    dump_avg := np_mean dump
    dump_std := Real.sqrt ((sample_var dump : ℚ) : ℝ)
    dump_worst := np_min dump
    atr_14 := atr_14
    atr_28 := atr_28
    atr_14_pct := atr_14 / c.getLastD 0
    atr_28_pct := atr_28 / c.getLastD 0
    dca_levels := fun p => np_percentile pump (p : ℚ) }

/-- The divisors of every division `analyze` performs, in source order:
`simple_returns = np.diff(c) / c[:-1]` divides by each close except the last
(line 140), `pump = (h - o) / o` and `dump = (l - o) / o` divide by each open
(lines 142-143), and `atr_14_pct` / `atr_28_pct` divide by the final close
`c[-1]` (lines 171-172). -/
def analyze_divisors (candles : List OHLCVCandle) : List ℚ :=
  let o := candles.map (fun cd => cd.open_)
  let c := candles.map (fun cd => cd.close)
  c.dropLast ++ o ++ o ++ [c.getLastD 0, c.getLastD 0]

/-- One rung of the DCA ladder. -/
structure DcaStep where
  percentile : ℕ
  target_level : ℚ
  allocation : ℚ
  deriving DecidableEq, Repr

/-- Modelled from the spec: the ladder derivation of `generate_dca_plan` is
invoked from `src/bot.py` but its definition is absent from `src/logic.py`.
Spec section 4.4 leaves the exact size scaling open and asks for a documented
monotonic allocation; we use one rung per pump percentile with the first cost
basis as the allocation of every rung (equal notional per step). -/
def derive_ladder (stats : VolatilityStats) (firstCostBasis : ℚ) : List DcaStep :=
  PERCENTILES.map (fun p => ⟨p, stats.dca_levels p, firstCostBasis⟩)

/-- Modelled from the spec: `VolatilityReportService.generate_dca_plan` is
called from `src/bot.py` (line 74) but missing from `src/logic.py`.  Per spec
sections 4.4-4.5 it validates the cost basis (`ValidationError` when
`firstCostBasis ≤ 0`), then resolves the ticker, fetches the daily candles,
analyzes them and derives the ladder, propagating client errors unchanged.
The underlying client is abstracted by the `resolveF`/`fetchF` oracles. -/
noncomputable def generate_dca_plan
    (resolveF : String → Except BotError SymbolResolution)
    (fetchF : String → String → Except BotError (List OHLCVCandle))
    (ticker : String) (firstCostBasis : ℚ) : Except BotError (List DcaStep) :=
  if firstCostBasis ≤ 0 then
    Except.error (BotError.validationError "First cost basis must be a positive number.")
  else
    match resolveF ticker with
    | Except.error e => Except.error e
    | Except.ok r =>
      match fetchF r.category r.symbol with
      | Except.error e => Except.error e
      | Except.ok candles => Except.ok (derive_ladder (analyze candles) firstCostBasis)

deriving instance DecidableEq for Except

/-! ### Claim C2: candidate generation -/

/-- C2.  For every raw ticker whose normalized form ends in `USDT`, `USDC` or
`USD`, symbol resolution generates exactly one candidate, the normalized
ticker itself; for every other valid normalized ticker it generates exactly
three candidates in the fixed order `<ticker>USDT`, `<ticker>USD`,
`<ticker>`. -/
theorem candidate_generation (raw n : String)
    (_hn : normalize_ticker raw = Except.ok n) :
    (has_quote_suffix n = true → candidates_for n = [n]) ∧
    (has_quote_suffix n = false →
      candidates_for n = [n ++ "USDT", n ++ "USD", n]) := by
  constructor <;> intro h <;> simp [candidates_for, h]

/-- Witness for C2 at the suffixed ticker `btc/usdt` and the bare
ticker `btc`. -/
theorem candidate_generation_witness :
    (normalize_ticker "btc/usdt" = Except.ok "BTCUSDT" ∧
      has_quote_suffix "BTCUSDT" = true ∧
      candidates_for "BTCUSDT" = ["BTCUSDT"]) ∧
    (normalize_ticker " btc " = Except.ok "BTC" ∧
      has_quote_suffix "BTC" = false ∧
      candidates_for "BTC" = ["BTC" ++ "USDT", "BTC" ++ "USD", "BTC"]) :=
  ⟨⟨by decide, by decide,
    (candidate_generation "btc/usdt" "BTCUSDT" (by decide)).1 (by decide)⟩,
   ⟨by decide, by decide,
    (candidate_generation " btc " "BTC" (by decide)).2 (by decide)⟩⟩

/-! ### Claim C4: retry exhaustion -/

theorem request_go_all_fail {α : Type} (outcome : ℕ → Option α) (retries : ℕ)
    (hfail : ∀ i, outcome i = none) :
    ∀ (k a : ℕ) (delay : ℚ), 1 ≤ k → a + k = retries + 1 →
      request_go outcome retries (List.range' a k) delay =
        (Except.error (BotError.bybitAPIError
          "Could not reach Bybit API. Please try again shortly."),
         k, geom_delays delay (k - 1)) := by
  intro k
  induction k with
  | zero => intro a delay h1 _; omega
  | succ m ih =>
    intro a delay _ hsum
    rw [List.range'_succ]
    show request_go outcome retries (a :: List.range' (a + 1) m) delay = _
    rw [request_go, hfail a]
    rcases Nat.eq_zero_or_pos m with hm | hm
    · subst hm
      have ha : a = retries := by omega
      simp [ha, geom_delays]
    · have ha : ¬ a = retries := by omega
      rw [if_neg ha]
      have hrec := ih (a + 1) (delay * 2) hm (by omega)
      rw [hrec]
      have hm1 : m - 1 + 1 = m := by omega
      simp only []
      rw [show delay * 2 = 2 * delay from mul_comm _ _]
      have : geom_delays delay (m + 1 - 1) = delay :: geom_delays (2 * delay) (m - 1) := by
        rw [show m + 1 - 1 = (m - 1) + 1 by omega, geom_delays]
      rw [this]

/-- C4.  If every attempt fails (network failure, malformed body, or non-zero
application status code), `request` performs exactly `retries` attempts
(default 3), sleeps the doubling back-off delays starting at `0.5`, and
surfaces exactly one DataSourceError; with the default `retries = 3` the
delays are `[0.5, 1.0]`, total at least `1.5`. -/
theorem request_exhausts_retries {α : Type} (outcome : ℕ → Option α)
    (retries : ℕ) (hr : 1 ≤ retries) (hfail : ∀ i, outcome i = none) :
    request (α := α) outcome retries =
      (Except.error (BotError.bybitAPIError
        "Could not reach Bybit API. Please try again shortly."),
       retries, geom_delays (1 / 2) (retries - 1)) ∧
    (retries = 3 →
      geom_delays ((1 : ℚ) / 2) (retries - 1) = [1 / 2, 1] ∧
      (3 / 2 : ℚ) ≤ (geom_delays ((1 : ℚ) / 2) (retries - 1)).sum) := by
  constructor
  · exact request_go_all_fail outcome retries hfail retries 1 (1 / 2) hr (by omega)
  · intro h3
    subst h3
    norm_num [geom_delays]

/-- Witness for C4: a permanently failing transport with the default three
retries. -/
theorem request_exhausts_retries_witness :
    (1 ≤ 3 ∧ ∀ i : ℕ, (fun _ : ℕ => (none : Option Unit)) i = none) ∧
    (request (α := Unit) (fun _ => none) 3 =
      (Except.error (BotError.bybitAPIError
        "Could not reach Bybit API. Please try again shortly."),
       3, geom_delays (1 / 2) 2) ∧
     (geom_delays ((1 : ℚ) / 2) 2 = [1 / 2, 1] ∧
      (3 / 2 : ℚ) ≤ (geom_delays ((1 : ℚ) / 2) 2).sum)) :=
  ⟨⟨by decide, fun _ => rfl⟩,
   (request_exhausts_retries (fun _ => none) 3 (by decide) (fun _ => rfl)).1,
   (request_exhausts_retries (α := Unit) (fun _ => none) 3 (by decide)
     (fun _ => rfl)).2 rfl⟩

/-! ### Claim C5: minimum-history validation and sorting -/

/-- C5.  With fewer than 30 returned rows, `fetch_daily_ohlcv` fails with a
DataSourceError whose message references needing at least 30 daily candles;
with at least 30 rows it returns the parsed series sorted ascending by
timestamp. -/
theorem fetch_daily_ohlcv_spec (rows : List RawRow) :
    (rows.length < 30 →
      ∃ msg, fetch_daily_ohlcv rows = Except.error (BotError.bybitAPIError msg) ∧
        "at least 30 daily candles".toList <:+: msg.toList) ∧
    (30 ≤ rows.length →
      ∃ cs, fetch_daily_ohlcv rows = Except.ok cs ∧
        List.Sorted ts_le cs ∧ cs.Perm (rows.map parse_row)) := by
  constructor
  · intro h
    refine ⟨"Not enough history available (need at least 30 daily candles).",
      by simp [fetch_daily_ohlcv, h], ?_⟩
    exact ⟨"Not enough history available (need ".toList, ").".toList, by decide⟩
  · intro h
    have h' : ¬ rows.length < 30 := by omega
    refine ⟨List.insertionSort ts_le (rows.map parse_row),
      by simp [fetch_daily_ohlcv, h'], ?_, ?_⟩
    · exact List.sorted_insertionSort ts_le _
    · exact List.perm_insertionSort ts_le _

/-- A sample decoded kline row. -/
def demo_row : RawRow := ⟨5, 1, 2, 1, 2, 10⟩

/-- A second sample row with an earlier timestamp. -/
def demo_row_early : RawRow := ⟨3, 1, 2, 1, 2, 10⟩

/-- Witness for C5: a 29-row response is rejected, a 30-row response is
parsed and sorted. -/
theorem fetch_daily_ohlcv_spec_witness :
    ((List.replicate 29 demo_row).length < 30 ∧
      ∃ msg, fetch_daily_ohlcv (List.replicate 29 demo_row) =
          Except.error (BotError.bybitAPIError msg) ∧
        "at least 30 daily candles".toList <:+: msg.toList) ∧
    (30 ≤ (demo_row :: List.replicate 29 demo_row_early).length ∧
      ∃ cs, fetch_daily_ohlcv (demo_row :: List.replicate 29 demo_row_early) =
          Except.ok cs ∧
        List.Sorted ts_le cs ∧
        cs.Perm ((demo_row :: List.replicate 29 demo_row_early).map parse_row)) :=
  ⟨⟨by simp, (fetch_daily_ohlcv_spec (List.replicate 29 demo_row)).1 (by simp)⟩,
   ⟨by simp, (fetch_daily_ohlcv_spec (demo_row :: List.replicate 29 demo_row_early)).2
      (by simp)⟩⟩

/-! ### Claim C6: invalid tickers rejected before the network -/

/-- C6.  Applied to any input whose cleaned (uppercased,
non-alphanumeric-stripped) form is empty — e.g. the empty string or a
whitespace-only string — or longer than 20 characters, symbol resolution
fails with a ValidationError and issues zero network requests, whatever the
instrument lookup would return. -/
theorem resolve_rejects_invalid (lookup : String → String → Option String)
    (raw : String)
    (h : clean_ticker raw = "" ∨ 20 < (clean_ticker raw).length) :
    ∃ msg, resolve_symbol_calls lookup raw =
      (Except.error (BotError.validationError msg), 0) := by
  have hnorm : ∃ msg, normalize_ticker raw =
      Except.error (BotError.validationError msg) := by
    rcases h with he | hl
    · exact ⟨"Please send a valid ticker (e.g., BTC, ETHUSDT, PEPE).",
        by simp [normalize_ticker, he]⟩
    · have h0 : ¬ (clean_ticker raw).length = 0 := by omega
      exact ⟨"Ticker is too long. Please send a normal symbol like BTC or SOLUSDT.",
        by simp [normalize_ticker, h0, hl, if_neg h0]⟩
  obtain ⟨msg, hm⟩ := hnorm
  exact ⟨msg, by simp [resolve_symbol_calls, hm]⟩

/-- An instrument lookup that recognizes every symbol: if resolution
consulted the network at all it would succeed. -/
def eager_lookup : String → String → Option String := fun _ cand => some cand

/-- Witness for C6 at `""`, `"   "` and a 21-character ticker. -/
theorem resolve_rejects_invalid_witness :
    ((clean_ticker "" = "" ∨ 20 < (clean_ticker "").length) ∧
      ∃ msg, resolve_symbol_calls eager_lookup "" =
        (Except.error (BotError.validationError msg), 0)) ∧
    ((clean_ticker "   " = "" ∨ 20 < (clean_ticker "   ").length) ∧
      ∃ msg, resolve_symbol_calls eager_lookup "   " =
        (Except.error (BotError.validationError msg), 0)) ∧
    ((clean_ticker "AAAAAAAAAAAAAAAAAAAAA" = "" ∨
        20 < (clean_ticker "AAAAAAAAAAAAAAAAAAAAA").length) ∧
      ∃ msg, resolve_symbol_calls eager_lookup "AAAAAAAAAAAAAAAAAAAAA" =
        (Except.error (BotError.validationError msg), 0)) :=
  ⟨⟨Or.inl (by decide), resolve_rejects_invalid eager_lookup "" (Or.inl (by decide))⟩,
   ⟨Or.inl (by decide), resolve_rejects_invalid eager_lookup "   " (Or.inl (by decide))⟩,
   ⟨Or.inr (by decide), resolve_rejects_invalid eager_lookup "AAAAAAAAAAAAAAAAAAAAA"
      (Or.inr (by decide))⟩⟩

/-! ### Claim C3: fixed segment search order -/

theorem find_candidate_none_iff (lookup : String → String → Option String)
    (cat : String) (cands : List String) :
    (find_candidate lookup cat cands).1 = none ↔
      ∀ c ∈ cands, lookup cat c = none := by
  induction cands with
  | nil => simp [find_candidate]
  | cons c rest ih =>
    cases hc : lookup cat c with
    | some sym => simp [find_candidate, hc]
    | none => simp [find_candidate, hc, ih]

theorem find_candidate_some (lookup : String → String → Option String)
    (cat : String) (cands : List String) (res : SymbolResolution)
    (h : (find_candidate lookup cat cands).1 = some res) :
    res.category = cat ∧
      ∃ cpre cand cpost, cands = cpre ++ cand :: cpost ∧
        (∀ x ∈ cpre, lookup cat x = none) ∧ lookup cat cand = some res.symbol := by
  induction cands with
  | nil => simp [find_candidate] at h
  | cons c rest ih =>
    cases hc : lookup cat c with
    | some sym =>
      rw [find_candidate, hc] at h
      obtain rfl : (⟨cat, sym⟩ : SymbolResolution) = res := by
        simpa using h
      exact ⟨rfl, [], c, rest, rfl, by simp, hc⟩
    | none =>
      rw [find_candidate, hc] at h
      obtain ⟨hcat, cpre, cand, cpost, heq, hpre, hfound⟩ := ih h
      exact ⟨hcat, c :: cpre, cand, cpost, by simp [heq],
        by simpa [hc] using hpre, hfound⟩

theorem search_categories_some (lookup : String → String → Option String)
    (cands : List String) (cats : List String) (res : SymbolResolution)
    (h : (search_categories lookup cands cats).1 = some res) :
    ∃ pre post, cats = pre ++ res.category :: post ∧
      (∀ cat ∈ pre, ∀ c ∈ cands, lookup cat c = none) ∧
      (find_candidate lookup res.category cands).1 = some res := by
  induction cats with
  | nil => simp [search_categories] at h
  | cons cat rest ih =>
    cases hfc : (find_candidate lookup cat cands).1 with
    | some r =>
      rw [search_categories] at h
      simp only [hfc] at h
      have hrr : r = res := by simpa using h
      subst hrr
      obtain ⟨hcat, -⟩ := find_candidate_some lookup cat cands r hfc
      exact ⟨[], rest, by simp [hcat], by simp, by rw [hcat]; exact hfc⟩
    | none =>
      rw [search_categories] at h
      simp only [hfc] at h
      obtain ⟨pre, post, heq, hpre, hfound⟩ := ih h
      refine ⟨cat :: pre, post, by simp [heq], ?_, hfound⟩
      intro c hc
      rcases List.mem_cons.mp hc with rfl | hmem
      · exact (find_candidate_none_iff lookup c cands).mp hfc
      · exact hpre c hmem

/-- C3.  Symbol resolution searches the market segments in the fixed order
linear, inverse, spot, trying each candidate in generated order within each
segment, and returns the first segment/candidate combination confirmed by the
instrument lookup: every segment before the returned one rejects every
candidate, and within the returned segment every candidate before the matched
one is rejected.  In particular, for a ticker resolvable in several segments
the returned segment is the first of those segments in this order. -/
theorem resolve_symbol_first_match (lookup : String → String → Option String)
    (raw n : String) (r : SymbolResolution)
    (hn : normalize_ticker raw = Except.ok n)
    (hr : resolve_symbol lookup raw = Except.ok r) :
    ∃ pre post, category_order = pre ++ r.category :: post ∧
      (∀ cat ∈ pre, ∀ cand ∈ candidates_for n, lookup cat cand = none) ∧
      ∃ cpre cand cpost, candidates_for n = cpre ++ cand :: cpost ∧
        (∀ x ∈ cpre, lookup r.category x = none) ∧
        lookup r.category cand = some r.symbol := by
  unfold resolve_symbol resolve_symbol_calls at hr
  rw [hn] at hr
  cases hs : (search_categories lookup (candidates_for n) category_order).1 with
  | none => simp [hs] at hr
  | some res =>
    simp only [hs] at hr
    obtain rfl : res = r := by simpa using hr
    obtain ⟨pre, post, heq, hpre, hfound⟩ :=
      search_categories_some lookup (candidates_for n) category_order res hs
    obtain ⟨-, cpre, cand, cpost, hceq, hcpre, hcfound⟩ :=
      find_candidate_some lookup res.category (candidates_for n) res hfound
    exact ⟨pre, post, heq, hpre, cpre, cand, cpost, hceq, hcpre, hcfound⟩

/-- An instrument lookup under which `BTC` is resolvable in both the inverse
and the spot segment (but not linear): inverse must win. -/
def demo_lookup : String → String → Option String := fun cat cand =>
  if cat == "inverse" && cand == "BTCUSD" then some "BTCUSD"
  else if cat == "spot" && cand == "BTCUSDT" then some "BTCUSDT"
  else none

/-- Witness for C3: with `demo_lookup`, `BTC` resolves to the inverse
segment, the earlier linear segment having rejected every candidate. -/
theorem resolve_symbol_first_match_witness :
    normalize_ticker "BTC" = Except.ok "BTC" ∧
    resolve_symbol demo_lookup "BTC" = Except.ok ⟨"inverse", "BTCUSD"⟩ ∧
    (∃ pre post, category_order =
        pre ++ (SymbolResolution.mk "inverse" "BTCUSD").category :: post ∧
      (∀ cat ∈ pre, ∀ cand ∈ candidates_for "BTC", demo_lookup cat cand = none) ∧
      ∃ cpre cand cpost, candidates_for "BTC" = cpre ++ cand :: cpost ∧
        (∀ x ∈ cpre, demo_lookup "inverse" x = none) ∧
        demo_lookup "inverse" cand = some "BTCUSD") :=
  ⟨by decide, by decide,
   resolve_symbol_first_match demo_lookup "BTC" "BTC" ⟨"inverse", "BTCUSD"⟩
     (by decide) (by decide)⟩

/-! ### Claim C8: DCA plan validation and error propagation -/

/-- C8.  `generate_dca_plan` fails with a ValidationError for every cost
basis `≤ 0`, and for positive cost bases propagates any resolution or fetch
error from the underlying client unchanged.  (The operation itself is
modelled from the spec, see `generate_dca_plan`.) -/
theorem generate_dca_plan_spec
    (resolveF : String → Except BotError SymbolResolution)
    (fetchF : String → String → Except BotError (List OHLCVCandle))
    (ticker : String) (fcb : ℚ) :
    (fcb ≤ 0 → ∃ m, generate_dca_plan resolveF fetchF ticker fcb =
        Except.error (BotError.validationError m)) ∧
    (0 < fcb → ∀ e, resolveF ticker = Except.error e →
        generate_dca_plan resolveF fetchF ticker fcb = Except.error e) ∧
    (0 < fcb → ∀ r e, resolveF ticker = Except.ok r →
        fetchF r.category r.symbol = Except.error e →
        generate_dca_plan resolveF fetchF ticker fcb = Except.error e) := by
  refine ⟨fun h => ?_, fun h e he => ?_, fun h r e hr he => ?_⟩
  · exact ⟨"First cost basis must be a positive number.",
      by simp [generate_dca_plan, h]⟩
  · simp [generate_dca_plan, not_le.mpr h, he]
  · simp [generate_dca_plan, not_le.mpr h, hr, he]

/-- A client whose resolution always fails. -/
def failing_resolveF : String → Except BotError SymbolResolution :=
  fun _ => Except.error (BotError.bybitAPIError "network down")

/-- A client that resolves every ticker on linear. -/
def ok_resolveF : String → Except BotError SymbolResolution :=
  fun _ => Except.ok ⟨"linear", "BTCUSDT"⟩

/-- A client whose candle fetch always fails. -/
def failing_fetchF : String → String → Except BotError (List OHLCVCandle) :=
  fun _ _ => Except.error (BotError.bybitAPIError "no history")

/-- Witness for C8: non-positive cost basis, failing resolution, failing
fetch. -/
theorem generate_dca_plan_spec_witness :
    ((0 : ℚ) ≤ 0 ∧
      ∃ m, generate_dca_plan failing_resolveF failing_fetchF "BTC" 0 =
        Except.error (BotError.validationError m)) ∧
    ((0 : ℚ) < 1 ∧
      failing_resolveF "BTC" = Except.error (BotError.bybitAPIError "network down") ∧
      generate_dca_plan failing_resolveF failing_fetchF "BTC" 1 =
        Except.error (BotError.bybitAPIError "network down")) ∧
    (ok_resolveF "BTC" = Except.ok ⟨"linear", "BTCUSDT"⟩ ∧
      failing_fetchF "linear" "BTCUSDT" = Except.error (BotError.bybitAPIError "no history") ∧
      generate_dca_plan ok_resolveF failing_fetchF "BTC" 1 =
        Except.error (BotError.bybitAPIError "no history")) :=
  ⟨⟨le_refl 0,
    (generate_dca_plan_spec failing_resolveF failing_fetchF "BTC" 0).1 (le_refl 0)⟩,
   ⟨one_pos, rfl,
    (generate_dca_plan_spec failing_resolveF failing_fetchF "BTC" 1).2.1 one_pos _ rfl⟩,
   ⟨rfl, rfl,
    (generate_dca_plan_spec ok_resolveF failing_fetchF "BTC" 1).2.2 one_pos
      ⟨"linear", "BTCUSDT"⟩ _ rfl rfl⟩⟩

/-! ### List and statistics helper lemmas -/

theorem zipWith_map_same {α γ δ ε : Type} (f : γ → δ → ε) (g₁ : α → γ)
    (g₂ : α → δ) (l : List α) :
    List.zipWith f (l.map g₁) (l.map g₂) = l.map (fun x => f (g₁ x) (g₂ x)) := by
  induction l with
  | nil => rfl
  | cons a t ih => simp [ih]

theorem zip_with3_replicate {α β γ δ : Type} (f : α → β → γ → δ) (n : ℕ)
    (a : α) (b : β) (c : γ) :
    zip_with3 f (List.replicate n a) (List.replicate n b) (List.replicate n c) =
      List.replicate n (f a b c) := by
  induction n with
  | zero => rfl
  | succ m ih => simp [List.replicate_succ, zip_with3, ih]

theorem list_sum_nonpos (xs : List ℚ) (h : ∀ x ∈ xs, x ≤ 0) : xs.sum ≤ 0 := by
  induction xs with
  | nil => simp
  | cons a t ih =>
    simp only [List.sum_cons]
    have ha := h a (List.mem_cons_self a t)
    have ht := ih (fun x hx => h x (List.mem_cons_of_mem a hx))
    linarith

theorem np_mean_nonneg (xs : List ℚ) (h : ∀ x ∈ xs, 0 ≤ x) : 0 ≤ np_mean xs :=
  div_nonneg (List.sum_nonneg h) (Nat.cast_nonneg _)

theorem np_mean_nonpos (xs : List ℚ) (h : ∀ x ∈ xs, x ≤ 0) : np_mean xs ≤ 0 :=
  div_nonpos_iff.mpr (Or.inr ⟨list_sum_nonpos xs h, Nat.cast_nonneg _⟩)

theorem np_mean_replicate {α : Type} [Field α] [CharZero α] {n : ℕ}
    (hn : n ≠ 0) (x : α) : np_mean (List.replicate n x) = x := by
  rw [np_mean, List.sum_replicate, List.length_replicate, nsmul_eq_mul]
  exact mul_div_cancel_left₀ x (Nat.cast_ne_zero.mpr hn)

theorem le_foldl_max (l : List ℚ) : ∀ x : ℚ, x ≤ l.foldl max x := by
  induction l with
  | nil => intro x; exact le_refl x
  | cons a t ih => intro x; exact le_trans (le_max_left x a) (ih (max x a))

theorem foldl_min_le (l : List ℚ) : ∀ x : ℚ, l.foldl min x ≤ x := by
  induction l with
  | nil => intro x; exact le_refl x
  | cons a t ih => intro x; exact le_trans (ih (min x a)) (min_le_left x a)

theorem np_max_nonneg {xs : List ℚ} (hne : xs ≠ []) (h : ∀ x ∈ xs, 0 ≤ x) :
    0 ≤ np_max xs := by
  cases xs with
  | nil => exact absurd rfl hne
  | cons a t =>
    have ha := h a (List.mem_cons_self a t)
    have : a ≤ np_max (a :: t) := by
      rw [np_max]; exact le_foldl_max (a :: t) a
    linarith

theorem np_min_nonpos {xs : List ℚ} (hne : xs ≠ []) (h : ∀ x ∈ xs, x ≤ 0) :
    np_min xs ≤ 0 := by
  cases xs with
  | nil => exact absurd rfl hne
  | cons a t =>
    have ha := h a (List.mem_cons_self a t)
    have : np_min (a :: t) ≤ a := by
      rw [np_min]; exact foldl_min_le (a :: t) a
    linarith

theorem getD_replicate_of_lt {n i : ℕ} (hi : i < n) {α : Type} (x d : α) :
    (List.replicate n x).getD i d = x := by
  rw [List.getD_eq_getElem _ _ (by simpa using hi)]
  exact List.getElem_replicate x _

/-! ### Percentile interpolation lemmas -/

theorem rank_floor_facts {rank : ℚ} {n : ℕ} (h0 : 0 ≤ rank)
    (h1 : rank ≤ (n : ℚ) - 1) :
    ((⌊rank⌋.toNat : ℚ) ≤ rank ∧ rank < (⌊rank⌋.toNat : ℚ) + 1) ∧
      ⌊rank⌋.toNat < n := by
  have hf0 : (0 : ℤ) ≤ ⌊rank⌋ := Int.floor_nonneg.mpr h0
  have hc : ((⌊rank⌋.toNat : ℚ)) = ((⌊rank⌋ : ℤ) : ℚ) := by
    rw [← Int.cast_natCast]
    exact congrArg _ (Int.toNat_of_nonneg hf0)
  refine ⟨⟨?_, ?_⟩, ?_⟩
  · rw [hc]; exact Int.floor_le rank
  · rw [hc]; exact Int.lt_floor_add_one rank
  · have h2 : ((⌊rank⌋.toNat : ℚ)) ≤ (n : ℚ) - 1 := by
      rw [hc]; exact le_trans (Int.floor_le rank) h1
    have h3 : ((⌊rank⌋.toNat : ℚ)) + 1 ≤ (n : ℚ) := by linarith
    have h4 : ⌊rank⌋.toNat + 1 ≤ n := by exact_mod_cast h3
    omega

theorem sorted_getD_le (s : List ℚ) (hs : List.Sorted (fun a b : ℚ => a ≤ b) s)
    {i j : ℕ} (hij : i ≤ j) (hj : j < s.length) (d e : ℚ) :
    s.getD i d ≤ s.getD j e := by
  have hi : i < s.length := lt_of_le_of_lt hij hj
  rw [List.getD_eq_getElem s d hi, List.getD_eq_getElem s e hj]
  rcases Nat.eq_or_lt_of_le hij with rfl | hlt
  · exact le_refl _
  · exact List.pairwise_iff_getElem.mp hs i j hi hj hlt

theorem sorted_getD_hi_ge_lo (s : List ℚ)
    (hs : List.Sorted (fun a b : ℚ => a ≤ b) s) {i : ℕ} (_hi : i < s.length) :
    s.getD i 0 ≤ s.getD (i + 1) (s.getD i 0) := by
  rcases Nat.lt_or_ge (i + 1) s.length with h | h
  · exact sorted_getD_le s hs (Nat.le_succ i) h 0 _
  · rw [List.getD_eq_default _ _ h]

theorem interp_at_mono (s : List ℚ) (hs : List.Sorted (fun a b : ℚ => a ≤ b) s)
    {r₁ r₂ : ℚ} (h0 : 0 ≤ r₁) (h12 : r₁ ≤ r₂)
    (h2 : r₂ ≤ (s.length : ℚ) - 1) :
    interp_at s r₁ ≤ interp_at s r₂ := by
  obtain ⟨⟨ha1, hb1⟩, hc1⟩ := rank_floor_facts h0 (le_trans h12 h2)
  obtain ⟨⟨ha2, hb2⟩, hc2⟩ := rank_floor_facts (le_trans h0 h12) h2
  simp only [interp_at]
  set i₁ := ⌊r₁⌋.toNat with hi₁def
  set i₂ := ⌊r₂⌋.toNat with hi₂def
  have hle : i₁ ≤ i₂ := by
    have hq : (i₁ : ℚ) < (i₂ : ℚ) + 1 := lt_of_le_of_lt (le_trans ha1 h12) hb2
    have : i₁ < i₂ + 1 := by exact_mod_cast hq
    omega
  rcases Nat.eq_or_lt_of_le hle with heq | hlt
  · rw [← heq]
    have hgl := sorted_getD_hi_ge_lo s hs hc1
    have hmul := mul_le_mul_of_nonneg_right (sub_le_sub_right h12 (i₁ : ℚ))
      (sub_nonneg.mpr hgl)
    linarith
  · have h1n : i₁ + 1 < s.length := by omega
    have hgl₁ : s.getD i₁ 0 ≤ s.getD (i₁ + 1) (s.getD i₁ 0) :=
      sorted_getD_hi_ge_lo s hs hc1
    have hstep1 : s.getD i₁ 0 + (r₁ - (i₁ : ℚ)) *
        (s.getD (i₁ + 1) (s.getD i₁ 0) - s.getD i₁ 0) ≤
        s.getD (i₁ + 1) (s.getD i₁ 0) := by
      have hf1 : r₁ - (i₁ : ℚ) ≤ 1 := by linarith
      have := mul_le_mul_of_nonneg_right hf1 (sub_nonneg.mpr hgl₁)
      linarith
    have hstep2 : s.getD (i₁ + 1) (s.getD i₁ 0) ≤ s.getD i₂ 0 :=
      sorted_getD_le s hs (by omega) hc2 _ 0
    have hgl₂ : s.getD i₂ 0 ≤ s.getD (i₂ + 1) (s.getD i₂ 0) :=
      sorted_getD_hi_ge_lo s hs hc2
    have hstep3 : s.getD i₂ 0 ≤ s.getD i₂ 0 + (r₂ - (i₂ : ℚ)) *
        (s.getD (i₂ + 1) (s.getD i₂ 0) - s.getD i₂ 0) := by
      have := mul_nonneg (by linarith : (0 : ℚ) ≤ r₂ - (i₂ : ℚ))
        (sub_nonneg.mpr hgl₂)
      linarith
    linarith

theorem interp_at_nonneg (s : List ℚ)
    (hs : List.Sorted (fun a b : ℚ => a ≤ b) s) (hpos : ∀ x ∈ s, 0 ≤ x)
    {rank : ℚ} (h0 : 0 ≤ rank) (h1 : rank ≤ (s.length : ℚ) - 1) :
    0 ≤ interp_at s rank := by
  obtain ⟨⟨ha, hb⟩, hc⟩ := rank_floor_facts h0 h1
  simp only [interp_at]
  set i := ⌊rank⌋.toNat with hidef
  have hlo : 0 ≤ s.getD i 0 := by
    rw [List.getD_eq_getElem s 0 hc]
    exact hpos _ (List.getElem_mem hc)
  have hgl : s.getD i 0 ≤ s.getD (i + 1) (s.getD i 0) :=
    sorted_getD_hi_ge_lo s hs hc
  have := mul_nonneg (by linarith : (0 : ℚ) ≤ rank - (i : ℚ))
    (sub_nonneg.mpr hgl)
  linarith

theorem interp_at_replicate {n : ℕ} (x : ℚ) {rank : ℚ} (h0 : 0 ≤ rank)
    (h1 : rank ≤ (n : ℚ) - 1) :
    interp_at (List.replicate n x) rank = x := by
  obtain ⟨⟨ha, hb⟩, hc⟩ := rank_floor_facts h0 h1
  simp only [interp_at]
  set i := ⌊rank⌋.toNat with hidef
  have hlo : (List.replicate n x).getD i 0 = x := getD_replicate_of_lt hc x 0
  rcases Nat.lt_or_ge (i + 1) n with hh | hh
  · rw [hlo, getD_replicate_of_lt hh]; ring
  · rw [hlo, List.getD_eq_default _ _ (by simpa using hh)]; ring

theorem np_percentile_mono (xs : List ℚ) (hne : xs ≠ []) {p q : ℚ}
    (h0 : 0 ≤ p) (hpq : p ≤ q) (h100 : q ≤ 100) :
    np_percentile xs p ≤ np_percentile xs q := by
  simp only [np_percentile]
  have hsorted : List.Sorted (fun a b : ℚ => a ≤ b)
      (List.insertionSort (fun a b : ℚ => a ≤ b) xs) :=
    List.sorted_insertionSort _ xs
  have hlen : (List.insertionSort (fun a b : ℚ => a ≤ b) xs).length = xs.length :=
    (List.perm_insertionSort _ xs).length_eq
  have hpos : (0 : ℚ) ≤ (xs.length : ℚ) - 1 := by
    have h1 : 1 ≤ xs.length := List.length_pos.mpr hne
    have : (1 : ℚ) ≤ (xs.length : ℚ) := by exact_mod_cast h1
    linarith
  apply interp_at_mono _ hsorted
  · exact mul_nonneg (div_nonneg h0 (by norm_num)) hpos
  · exact mul_le_mul_of_nonneg_right (div_le_div_of_nonneg_right hpq (by norm_num)) hpos
  · rw [hlen]
    have hq1 : q / 100 ≤ 1 := (div_le_one (by norm_num)).mpr h100
    have := mul_le_mul_of_nonneg_right hq1 hpos
    linarith

theorem np_percentile_nonneg (xs : List ℚ) (hne : xs ≠ [])
    (hpos : ∀ x ∈ xs, 0 ≤ x) {p : ℚ} (h0 : 0 ≤ p) (h100 : p ≤ 100) :
    0 ≤ np_percentile xs p := by
  simp only [np_percentile]
  have hsorted : List.Sorted (fun a b : ℚ => a ≤ b)
      (List.insertionSort (fun a b : ℚ => a ≤ b) xs) :=
    List.sorted_insertionSort _ xs
  have hlen : (List.insertionSort (fun a b : ℚ => a ≤ b) xs).length = xs.length :=
    (List.perm_insertionSort _ xs).length_eq
  have hposlen : (0 : ℚ) ≤ (xs.length : ℚ) - 1 := by
    have h1 : 1 ≤ xs.length := List.length_pos.mpr hne
    have : (1 : ℚ) ≤ (xs.length : ℚ) := by exact_mod_cast h1
    linarith
  apply interp_at_nonneg _ hsorted
  · intro x hx
    exact hpos x ((List.mem_insertionSort _).mp hx)
  · exact mul_nonneg (div_nonneg h0 (by norm_num)) hposlen
  · rw [hlen]
    have hq1 : p / 100 ≤ 1 := (div_le_one (by norm_num)).mpr h100
    have := mul_le_mul_of_nonneg_right hq1 hposlen
    linarith

theorem np_percentile_replicate {n : ℕ} (hn : n ≠ 0) (x : ℚ) {p : ℚ}
    (h0 : 0 ≤ p) (h100 : p ≤ 100) :
    np_percentile (List.replicate n x) p = x := by
  simp only [np_percentile]
  have hsort : List.insertionSort (fun a b : ℚ => a ≤ b) (List.replicate n x) =
      List.replicate n x :=
    List.Sorted.insertionSort_eq (List.pairwise_replicate.mpr (Or.inr (le_refl x)))
  rw [hsort]
  have hposlen : (0 : ℚ) ≤ ((List.replicate n x).length : ℚ) - 1 := by
    have h1 : 1 ≤ n := Nat.one_le_iff_ne_zero.mpr hn
    have : (1 : ℚ) ≤ (n : ℚ) := by exact_mod_cast h1
    simp only [List.length_replicate]
    linarith
  apply interp_at_replicate
  · exact mul_nonneg (div_nonneg h0 (by norm_num)) (by simpa using hposlen)
  · simp only [List.length_replicate] at hposlen ⊢
    have hq1 : p / 100 ≤ 1 := (div_le_one (by norm_num)).mpr h100
    have := mul_le_mul_of_nonneg_right hq1 hposlen
    linarith

/-! ### Projections of `analyze` in closed form -/

theorem analyze_pump_avg (candles : List OHLCVCandle) :
    (analyze candles).pump_avg =
      np_mean (candles.map fun cd => (cd.high - cd.open_) / cd.open_) := by
  simp only [analyze]
  rw [zipWith_map_same]

theorem analyze_pump_best (candles : List OHLCVCandle) :
    (analyze candles).pump_best =
      np_max (candles.map fun cd => (cd.high - cd.open_) / cd.open_) := by
  simp only [analyze]
  rw [zipWith_map_same]

theorem analyze_dump_avg (candles : List OHLCVCandle) :
    (analyze candles).dump_avg =
      np_mean (candles.map fun cd => (cd.low - cd.open_) / cd.open_) := by
  simp only [analyze]
  rw [zipWith_map_same]

theorem analyze_dump_worst (candles : List OHLCVCandle) :
    (analyze candles).dump_worst =
      np_min (candles.map fun cd => (cd.low - cd.open_) / cd.open_) := by
  simp only [analyze]
  rw [zipWith_map_same]

theorem analyze_dca_levels (candles : List OHLCVCandle) (p : ℕ) :
    (analyze candles).dca_levels p =
      np_percentile (candles.map fun cd => (cd.high - cd.open_) / cd.open_)
        (p : ℚ) := by
  simp only [analyze]
  rw [zipWith_map_same]

theorem getLastD_mem {α : Type} {l : List α} (hne : l ≠ []) (d : α) :
    l.getLastD d ∈ l := by
  rw [List.getLastD_eq_getLast?, List.getLast?_eq_getLast l hne]
  exact List.getLast_mem hne

/-! ### Claim C9: division safety -/

/-- C9.  For every series of length at least 30 whose opens and closes are
all strictly positive, no divisor used by `analyze` — each open (pump and
dump), each close used as a previous close (simple returns), and the final
close (ATR percentages) — is zero, so `analyze` never divides by zero; and a
series containing a zero close makes one of those divisors zero, so the
division-by-zero failure occurs, deterministically, for every such series. -/
theorem analyze_division_safety (candles : List OHLCVCandle)
    (h30 : 30 ≤ candles.length) :
    ((∀ cd ∈ candles, 0 < cd.open_ ∧ 0 < cd.close) →
      ∀ d ∈ analyze_divisors candles, d ≠ 0) ∧
    ((∃ cd ∈ candles, cd.close = 0) →
      ∃ d ∈ analyze_divisors candles, d = 0) := by
  have hne : candles ≠ [] := List.ne_nil_of_length_pos (by omega)
  have hcne : candles.map (fun cd => cd.close) ≠ [] := by
    intro h
    exact hne (List.map_eq_nil_iff.mp h)
  constructor
  · intro hpos d hd
    simp only [analyze_divisors] at hd
    rw [List.mem_append, List.mem_append, List.mem_append] at hd
    rcases hd with ((hd | hd) | hd) | hd
    · have hmem : d ∈ candles.map (fun cd => cd.close) :=
        List.mem_of_mem_dropLast hd
      rw [List.mem_map] at hmem
      obtain ⟨cd, hcd, rfl⟩ := hmem
      exact ne_of_gt (hpos cd hcd).2
    · rw [List.mem_map] at hd
      obtain ⟨cd, hcd, rfl⟩ := hd
      exact ne_of_gt (hpos cd hcd).1
    · rw [List.mem_map] at hd
      obtain ⟨cd, hcd, rfl⟩ := hd
      exact ne_of_gt (hpos cd hcd).1
    · have hdl : d = (candles.map fun cd => cd.close).getLastD 0 := by
        rcases List.mem_cons.mp hd with h | h
        · exact h
        · simpa using h
      have hmem : d ∈ candles.map (fun cd => cd.close) := by
        rw [hdl]; exact getLastD_mem hcne 0
      rw [List.mem_map] at hmem
      obtain ⟨cd, hcd, hcl⟩ := hmem
      rw [← hcl]
      exact ne_of_gt (hpos cd hcd).2
  · rintro ⟨cd, hcd, hz⟩
    refine ⟨0, ?_, rfl⟩
    have h0mem : (0 : ℚ) ∈ candles.map (fun cd => cd.close) :=
      List.mem_map.mpr ⟨cd, hcd, hz⟩
    have hsplit := List.dropLast_append_getLast (l := candles.map fun cd => cd.close) hcne
    have h0mem' : (0 : ℚ) ∈ (candles.map fun cd => cd.close).dropLast ++
        [(candles.map fun cd => cd.close).getLast hcne] := by
      rw [hsplit]; exact h0mem
    simp only [analyze_divisors]
    rw [List.mem_append, List.mem_append, List.mem_append]
    rcases List.mem_append.mp h0mem' with h | h
    · exact Or.inl (Or.inl (Or.inl h))
    · have hlast : (candles.map fun cd => cd.close).getLastD 0 = 0 := by
        rw [List.getLastD_eq_getLast?, List.getLast?_eq_getLast _ hcne]
        simpa using (List.mem_singleton.mp h).symm
      refine Or.inr ?_
      rw [hlast]
      exact List.mem_cons_self 0 [0]

/-- The constant candle of the spec scenario (C1) and of the positive
witnesses. -/
def candle100 : OHLCVCandle := ⟨0, 100, 110, 90, 100, 0⟩

/-- Thirty copies of `candle100`. -/
def const_series : List OHLCVCandle := List.replicate 30 candle100

/-- A degenerate all-equal candle satisfying the OHLC invariant. -/
def candle_flat : OHLCVCandle := ⟨0, 100, 100, 100, 100, 0⟩

/-- Thirty copies of `candle_flat`. -/
def flat_series : List OHLCVCandle := List.replicate 30 candle_flat

/-- A candle with a zero close. -/
def candle_zero_close : OHLCVCandle := ⟨0, 100, 110, 90, 0, 0⟩

/-- Thirty copies of `candle_zero_close`. -/
def zero_close_series : List OHLCVCandle := List.replicate 30 candle_zero_close

/-- Witness for C9: an all-positive series has no zero divisor, a zero-close
series has one. -/
theorem analyze_division_safety_witness :
    (30 ≤ const_series.length ∧
      (∀ cd ∈ const_series, 0 < cd.open_ ∧ 0 < cd.close) ∧
      ∀ d ∈ analyze_divisors const_series, d ≠ 0) ∧
    (30 ≤ zero_close_series.length ∧
      (∃ cd ∈ zero_close_series, cd.close = 0) ∧
      ∃ d ∈ analyze_divisors zero_close_series, d = 0) :=
  ⟨⟨by simp [const_series], by simp [const_series, candle100],
    (analyze_division_safety const_series (by simp [const_series])).1
      (by simp [const_series, candle100])⟩,
   ⟨by simp [zero_close_series],
    ⟨candle_zero_close, by simp [zero_close_series], rfl⟩,
    (analyze_division_safety zero_close_series (by simp [zero_close_series])).2
      ⟨candle_zero_close, by simp [zero_close_series], rfl⟩⟩⟩

/-! ### Claim C10: signs of the pump and dump statistics -/

/-- C10.  For every candle series (length at least 30) in which each candle
has a positive open, `low ≤ min(open, close)` and `max(open, close) ≤ high`,
the pump statistics of `analyze` are non-negative — pump average, best pump
and every DCA percentile level — and the dump statistics are non-positive —
dump average and worst dump. -/
theorem analyze_pump_dump_signs (candles : List OHLCVCandle)
    (h30 : 30 ≤ candles.length)
    (hinv : ∀ cd ∈ candles, 0 < cd.open_ ∧ cd.low ≤ min cd.open_ cd.close ∧
      max cd.open_ cd.close ≤ cd.high) :
    0 ≤ (analyze candles).pump_avg ∧ 0 ≤ (analyze candles).pump_best ∧
    (∀ p ∈ PERCENTILES, 0 ≤ (analyze candles).dca_levels p) ∧
    (analyze candles).dump_avg ≤ 0 ∧ (analyze candles).dump_worst ≤ 0 := by
  have hne : candles ≠ [] := List.ne_nil_of_length_pos (by omega)
  have hpne : candles.map (fun cd => (cd.high - cd.open_) / cd.open_) ≠ [] := by
    intro h; exact hne (List.map_eq_nil_iff.mp h)
  have hdne : candles.map (fun cd => (cd.low - cd.open_) / cd.open_) ≠ [] := by
    intro h; exact hne (List.map_eq_nil_iff.mp h)
  have hpump : ∀ x ∈ candles.map (fun cd => (cd.high - cd.open_) / cd.open_),
      0 ≤ x := by
    intro x hx
    rw [List.mem_map] at hx
    obtain ⟨cd, hcd, rfl⟩ := hx
    obtain ⟨hop, _hlow, hhigh⟩ := hinv cd hcd
    have hoh : cd.open_ ≤ cd.high := le_trans (le_max_left _ _) hhigh
    exact div_nonneg (by linarith) (le_of_lt hop)
  have hdump : ∀ x ∈ candles.map (fun cd => (cd.low - cd.open_) / cd.open_),
      x ≤ 0 := by
    intro x hx
    rw [List.mem_map] at hx
    obtain ⟨cd, hcd, rfl⟩ := hx
    obtain ⟨hop, hlow, _hhigh⟩ := hinv cd hcd
    have hol : cd.low ≤ cd.open_ := le_trans hlow (min_le_left _ _)
    exact div_nonpos_iff.mpr (Or.inr ⟨by linarith, le_of_lt hop⟩)
  refine ⟨?_, ?_, ?_, ?_, ?_⟩
  · rw [analyze_pump_avg]; exact np_mean_nonneg _ hpump
  · rw [analyze_pump_best]; exact np_max_nonneg hpne hpump
  · intro p hp
    rw [analyze_dca_levels]
    have hb : (0 : ℚ) ≤ (p : ℚ) ∧ (p : ℚ) ≤ 100 := by
      fin_cases hp <;> norm_num
    exact np_percentile_nonneg _ hpne hpump hb.1 hb.2
  · rw [analyze_dump_avg]; exact np_mean_nonpos _ hdump
  · rw [analyze_dump_worst]; exact np_min_nonpos hdne hdump

/-- Witness for C10 at a concrete 30-candle series satisfying the OHLC
invariant. -/
theorem analyze_pump_dump_signs_witness :
    (30 ≤ flat_series.length ∧
      (∀ cd ∈ flat_series, 0 < cd.open_ ∧ cd.low ≤ min cd.open_ cd.close ∧
        max cd.open_ cd.close ≤ cd.high)) ∧
    (0 ≤ (analyze flat_series).pump_avg ∧ 0 ≤ (analyze flat_series).pump_best ∧
      (∀ p ∈ PERCENTILES, 0 ≤ (analyze flat_series).dca_levels p) ∧
      (analyze flat_series).dump_avg ≤ 0 ∧ (analyze flat_series).dump_worst ≤ 0) :=
  ⟨⟨by simp [flat_series], by simp [flat_series, candle_flat]⟩,
   analyze_pump_dump_signs flat_series (by simp [flat_series])
     (by simp [flat_series, candle_flat])⟩

/-! ### Claim C7: monotone DCA percentile levels -/

/-- C7.  For every candle series accepted by `analyze` (length at least 30),
the six DCA percentile levels are monotonically non-decreasing in the
percentile: level 75 ≤ level 80 ≤ level 85 ≤ level 90 ≤ level 95 ≤
level 99. -/
theorem analyze_dca_levels_monotone (candles : List OHLCVCandle)
    (h30 : 30 ≤ candles.length) :
    (analyze candles).dca_levels 75 ≤ (analyze candles).dca_levels 80 ∧
    (analyze candles).dca_levels 80 ≤ (analyze candles).dca_levels 85 ∧
    (analyze candles).dca_levels 85 ≤ (analyze candles).dca_levels 90 ∧
    (analyze candles).dca_levels 90 ≤ (analyze candles).dca_levels 95 ∧
    (analyze candles).dca_levels 95 ≤ (analyze candles).dca_levels 99 := by
  have hne : candles ≠ [] := List.ne_nil_of_length_pos (by omega)
  have hpne : candles.map (fun cd => (cd.high - cd.open_) / cd.open_) ≠ [] := by
    intro h; exact hne (List.map_eq_nil_iff.mp h)
  refine ⟨?_, ?_, ?_, ?_, ?_⟩ <;>
    (rw [analyze_dca_levels, analyze_dca_levels];
     apply np_percentile_mono _ hpne <;> norm_num)

/-- Witness for C7 at a concrete 30-candle series. -/
theorem analyze_dca_levels_monotone_witness :
    30 ≤ const_series.length ∧
    ((analyze const_series).dca_levels 75 ≤ (analyze const_series).dca_levels 80 ∧
     (analyze const_series).dca_levels 80 ≤ (analyze const_series).dca_levels 85 ∧
     (analyze const_series).dca_levels 85 ≤ (analyze const_series).dca_levels 90 ∧
     (analyze const_series).dca_levels 90 ≤ (analyze const_series).dca_levels 95 ∧
     (analyze const_series).dca_levels 95 ≤ (analyze const_series).dca_levels 99) :=
  ⟨by simp [const_series],
   analyze_dca_levels_monotone const_series (by simp [const_series])⟩

/-! ### Claim C1: the constant 30-candle scenario -/

theorem analyze_daily_vol (candles : List OHLCVCandle) :
    (analyze candles).daily_vol =
      np_std_sample (np_diff (np_log (candles.map fun cd => cd.close))) := by
  simp only [analyze]

theorem analyze_atr_14 (candles : List OHLCVCandle) :
    (analyze candles).atr_14 =
      np_mean (last_n 14
        (zip_with3 (fun hi lo pc => max (hi - lo) (max |hi - pc| |lo - pc|))
          (candles.map fun cd => cd.high) (candles.map fun cd => cd.low)
          ((candles.map fun cd => cd.close).headD 0 ::
            (candles.map fun cd => cd.close).dropLast))) := by
  simp only [analyze]

theorem analyze_atr_28 (candles : List OHLCVCandle) :
    (analyze candles).atr_28 =
      np_mean (last_n 28
        (zip_with3 (fun hi lo pc => max (hi - lo) (max |hi - pc| |lo - pc|))
          (candles.map fun cd => cd.high) (candles.map fun cd => cd.low)
          ((candles.map fun cd => cd.close).headD 0 ::
            (candles.map fun cd => cd.close).dropLast))) := by
  simp only [analyze]

/-- C1.  On every 30-candle series with constant `open = 100`, `high = 110`,
`low = 90`, `close = 100`, `analyze` returns daily volatility `0`, pump
average `0.10`, dump average `-0.10`, `ATR(14) = ATR(28) = 20`, and every
percentile DCA level equal to `0.10`. -/
theorem analyze_constant_series (candles : List OHLCVCandle)
    (hlen : candles.length = 30)
    (hconst : ∀ cd ∈ candles,
      cd.open_ = 100 ∧ cd.high = 110 ∧ cd.low = 90 ∧ cd.close = 100) :
    (analyze candles).daily_vol = 0 ∧
    (analyze candles).pump_avg = 1 / 10 ∧
    (analyze candles).dump_avg = -(1 / 10) ∧
    (analyze candles).atr_14 = 20 ∧
    (analyze candles).atr_28 = 20 ∧
    ∀ p ∈ PERCENTILES, (analyze candles).dca_levels p = 1 / 10 := by
  have mkrep : ∀ (f : OHLCVCandle → ℚ) (v : ℚ), (∀ cd ∈ candles, f cd = v) →
      candles.map f = List.replicate 30 v := by
    intro f v hf
    refine List.eq_replicate_iff.mpr ⟨by simp [hlen], ?_⟩
    intro b hb
    rw [List.mem_map] at hb
    obtain ⟨cd, hcd, rfl⟩ := hb
    exact hf cd hcd
  have hh : candles.map (fun cd => cd.high) = List.replicate 30 (110 : ℚ) :=
    mkrep _ _ (fun cd h => (hconst cd h).2.1)
  have hl : candles.map (fun cd => cd.low) = List.replicate 30 (90 : ℚ) :=
    mkrep _ _ (fun cd h => (hconst cd h).2.2.1)
  have hc : candles.map (fun cd => cd.close) = List.replicate 30 (100 : ℚ) :=
    mkrep _ _ (fun cd h => (hconst cd h).2.2.2)
  have hpump : candles.map (fun cd => (cd.high - cd.open_) / cd.open_) =
      List.replicate 30 (1 / 10 : ℚ) := by
    refine mkrep _ _ (fun cd h => ?_)
    obtain ⟨h1, h2, -, -⟩ := hconst cd h
    rw [h1, h2]; norm_num
  have hdump : candles.map (fun cd => (cd.low - cd.open_) / cd.open_) =
      List.replicate 30 (-(1 / 10) : ℚ) := by
    refine mkrep _ _ (fun cd h => ?_)
    obtain ⟨h1, -, h3, -⟩ := hconst cd h
    rw [h1, h3]; norm_num
  have hprev : ((List.replicate 30 (100 : ℚ)).headD 0 ::
      (List.replicate 30 (100 : ℚ)).dropLast) = List.replicate 30 (100 : ℚ) := by
    rfl
  have htrf : max ((110 : ℚ) - 90) (max |(110 : ℚ) - 100| |(90 : ℚ) - 100|) = 20 := by
    rw [show |(110 : ℚ) - 100| = 10 by rw [abs_of_nonneg] <;> norm_num]
    rw [show |(90 : ℚ) - 100| = 10 by rw [abs_of_nonpos] <;> norm_num]
    norm_num [max_def]
  have htr : zip_with3 (fun hi lo pc => max (hi - lo) (max |hi - pc| |lo - pc|))
      (List.replicate 30 (110 : ℚ)) (List.replicate 30 (90 : ℚ))
      (List.replicate 30 (100 : ℚ)) = List.replicate 30 (20 : ℚ) := by
    rw [zip_with3_replicate]
    rw [htrf]
  refine ⟨?_, ?_, ?_, ?_, ?_, ?_⟩
  · rw [analyze_daily_vol, hc]
    have hlog : np_log (List.replicate 30 (100 : ℚ)) =
        List.replicate 30 (Real.log (100 : ℚ)) := by
      rw [np_log, List.map_replicate]
    rw [hlog]
    have hdiff : np_diff (List.replicate 30 (Real.log (100 : ℚ))) =
        List.replicate 29 (0 : ℝ) := by
      rw [np_diff, List.tail_replicate, List.zipWith_replicate, sub_self]
      norm_num
    rw [hdiff, np_std_sample]
    have hvar : sample_var (List.replicate 29 (0 : ℝ)) = 0 := by
      have hm : np_mean (List.replicate 29 (0 : ℝ)) = 0 :=
        np_mean_replicate (by norm_num) 0
      rw [sample_var, hm, List.map_replicate]
      simp
    rw [hvar, Real.sqrt_zero]
  · rw [analyze_pump_avg, hpump]
    exact np_mean_replicate (by norm_num) _
  · rw [analyze_dump_avg, hdump]
    exact np_mean_replicate (by norm_num) _
  · rw [analyze_atr_14, hh, hl, hc, hprev, htr]
    have h14 : last_n 14 (List.replicate 30 (20 : ℚ)) = List.replicate 14 20 := by
      rw [last_n, List.length_replicate, List.drop_replicate]
    rw [h14]
    exact np_mean_replicate (by norm_num) _
  · rw [analyze_atr_28, hh, hl, hc, hprev, htr]
    have h28 : last_n 28 (List.replicate 30 (20 : ℚ)) = List.replicate 28 20 := by
      rw [last_n, List.length_replicate, List.drop_replicate]
    rw [h28]
    exact np_mean_replicate (by norm_num) _
  · intro p hp
    rw [analyze_dca_levels, hpump]
    have hb : (0 : ℚ) ≤ (p : ℚ) ∧ (p : ℚ) ≤ 100 := by
      fin_cases hp <;> norm_num
    exact np_percentile_replicate (by norm_num) _ hb.1 hb.2

/-- Witness for C1 at thirty literal copies of the constant candle. -/
theorem analyze_constant_series_witness :
    (const_series.length = 30 ∧
      ∀ cd ∈ const_series,
        cd.open_ = 100 ∧ cd.high = 110 ∧ cd.low = 90 ∧ cd.close = 100) ∧
    ((analyze const_series).daily_vol = 0 ∧
      (analyze const_series).pump_avg = 1 / 10 ∧
      (analyze const_series).dump_avg = -(1 / 10) ∧
      (analyze const_series).atr_14 = 20 ∧
      (analyze const_series).atr_28 = 20 ∧
      ∀ p ∈ PERCENTILES, (analyze const_series).dca_levels p = 1 / 10) :=
  ⟨⟨by simp [const_series], by simp [const_series, candle100]⟩,
   analyze_constant_series const_series (by simp [const_series])
     (by simp [const_series, candle100])⟩

end VolBot
